import Mathlib

/-!
Verification of the QuantumPulse ledger subsystem.

Shallow embedding conventions used throughout this file:
* C++ `double` arithmetic on the economic paths is modelled over `ℚ`.
  The relevant computations (reward halving, difficulty thresholds,
  price floor clamping, satoshi counters) are exact in the double
  range actually reached, so the rational model is faithful on those
  paths; transcendental oracle inputs (`std::sin`) are abstracted as an
  explicit parameter ranging over all rationals.
* C++ `int64_t` satoshi counters are modelled as `ℤ`.
* `std::map` is modelled either as an `Option`-valued lookup function
  (when only lookups are observed) or as a Finset domain plus a value
  function (when sizes and iteration sums are observed).
* Mutex-protected methods execute atomically, so a concurrent history
  is a sequence of calls; lock-step interleaving is modelled explicitly
  only where a claim is about the locking protocol itself.
-/

namespace QuantumPulse

namespace Mining

/-- Constant from `MiningConfig`: `MAX_MINABLE_COINS = 3000000.0`,
expressed in satoshis (`* 100000000`) as `addMinedCoins` does. -/
def maxMinableSatoshis : ℤ := 3000000 * 100000000

/-- Embeds `MiningManager::addMinedCoins` (header, lines 86-101): under the
mining mutex, `current + amountSatoshis > maxSatoshis` stores the cap,
otherwise it adds.  `amountSatoshis` is the already-truncated
`static_cast<int64_t>(amount * 100000000)`. -/
def addMinedCoins (current amountSatoshis : ℤ) : ℤ :=
  if current + amountSatoshis > maxMinableSatoshis then maxMinableSatoshis
  else current + amountSatoshis

/-- A sequence of `addMinedCoins` calls starting from the initial counter 0.
The method body holds `miningMutex_`, so every concurrent history is some
sequence of whole calls. -/
def runAddMinedCoins (amounts : List ℤ) : ℤ :=
  amounts.foldl addMinedCoins 0

/-- Embeds the counter update of `Blockchain::addBlock` (blockchain header,
lines 367-385): `totalMinedCoins.fetch_add(int64_t(block.reward * 100000000))`
with no clamp. -/
def ledgerAddBlockCounter (current rewardSatoshis : ℤ) : ℤ :=
  current + rewardSatoshis

/-- A sequence of `addBlock` counter increments starting from 0. -/
def runLedgerCounter (rewards : List ℤ) : ℤ :=
  rewards.foldl ledgerAddBlockCounter 0

/-- Embeds `Blockchain::getTotalMinedCoins`: the raw satoshi counter divided
by `10^8`, clamped by `std::min(mined, 3000000.0)` on read. -/
def getTotalMinedCoins (counterSatoshis : ℤ) : ℚ :=
  min ((counterSatoshis : ℚ) / 100000000) 3000000

/-- Constant from `MiningConfig`: `HALVING_INTERVAL = 210000`. -/
def halvingInterval : ℕ := 210000

/-- Constant from `MiningConfig`: `INITIAL_REWARD = 50.0`. -/
def initialReward : ℚ := 50

/-- Constant from `MiningConfig`: `MIN_REWARD = 0.0005` (= 1/2000). -/
def minReward : ℚ := 1 / 2000

/-- Embeds `MiningManager::calculateBlockReward` (header, lines 144-151) and
the identical `Blockchain::calculateBlockReward` (blockchain header, lines
430-434): integer halvings count, halved initial reward, floored at the
minimum reward.  `50 / 2^k` is exact in double until far below the floor,
so the rational model is faithful. -/
def calculateBlockReward (blockHeight : ℕ) : ℚ :=
  let halvings := blockHeight / halvingInterval
  let reward := initialReward / 2 ^ halvings
  max reward minReward

/-- Constant from `MiningConfig`: `MAX_DIFFICULTY = 512`. -/
def maxDifficulty : ℤ := 512

/-- Constant from `MiningConfig`: `MIN_DIFFICULTY = 1`. -/
def minDifficulty : ℤ := 1

/-- Embeds the stepped rule of `MiningManager::adjustDifficulty` (mining
header lines 110-137 and src/quantumpulse_mining_v7.cpp lines 82-101, which
agree), as a function of the ratio `actualBlockTime / targetBlockTime`
(the header returns early when `targetBlockTime <= 0`, so the ratio is a
well-defined positive-denominator quotient). Thresholds: 0.5, 0.8, 2.0, 1.5. -/
def adjustDifficultyStep (currentDifficulty : ℤ) (ratio : ℚ) : ℤ :=
  if ratio < 1/2 then min (currentDifficulty + 2) maxDifficulty
  else if ratio < 4/5 then min (currentDifficulty + 1) maxDifficulty
  else if ratio > 2 then max (currentDifficulty - 2) minDifficulty
  else if ratio > 3/2 then max (currentDifficulty - 1) minDifficulty
  else currentDifficulty

/-- Embeds the free function `adjustDifficulty` of
src/quantumpulse_blockchain_v7.cpp (lines 74-89), as a function of the
ratio.  It differs from the mining-manager rule: the +1 step fires for
`ratio < 0.75`, not `ratio < 0.8`. -/
def adjustDifficultyBC (currentDifficulty : ℤ) (ratio : ℚ) : ℤ :=
  if ratio < 1/2 then min (currentDifficulty + 2) 512
  else if ratio < 3/4 then min (currentDifficulty + 1) 512
  else if ratio > 2 then max (currentDifficulty - 2) 1
  else if ratio > 3/2 then max (currentDifficulty - 1) 1
  else currentDifficulty

end Mining

namespace Price

/-- Constant `MINIMUM_PRICE = 600000.0` from `adjustCoinPrice`. -/
def minimumPrice : ℚ := 600000

/-- Rational stand-in for `std::numeric_limits<double>::max() / 2`, the
saturation value of the overflow branch: DBL_MAX = (2^53 - 1) * 2^971. -/
def dblMaxHalf : ℚ := (2 ^ 53 - 1) * 2 ^ 971 / 2

/-- Embeds `Blockchain::adjustCoinPrice`.  The transcendental oracle input
`std::sin(blockHeight * 0.01)` is abstracted as the parameter `sinVal`
(the theorem quantifies over all rationals, a superset of the range of
sin).  The `isinf || > DBL_MAX/2` overflow branch is modelled as the
single `> dblMaxHalf` saturation test (in the rational model no value is
infinite).  All remaining steps mirror the source line by line:
growth factor compounding, non-negative-bias oracle clamp, overflow
saturation, and the final unconditional floor `max(newPrice, MINIMUM_PRICE)`. -/
def adjustCoinPrice (currentPrice : ℚ) (blockHeight : ℕ) (sinVal : ℚ) : ℚ :=
  let growthFactor : ℚ := 10005 / 10000
  let newPrice := currentPrice * growthFactor ^ (blockHeight % 1000000)
  let oracleRaw : ℚ := 1 + sinVal * (1 / 1000)
  let oracleAdjustment := if oracleRaw < 1 then 1 else oracleRaw
  let adjusted := newPrice * oracleAdjustment
  let saturated := if adjusted > dblMaxHalf then dblMaxHalf else adjusted
  max saturated minimumPrice

end Price

namespace Ledger

/-- Character-list prefix test, used to embed `std::string::find` below. -/
def beginsWith : List Char → List Char → Bool
  | _, [] => true
  | [], _ :: _ => false
  | c :: cs, p :: ps => c == p && beginsWith cs ps

/-- Substring occurrence test over character lists:
`containsFrom s p = true` iff `p` occurs (contiguously) somewhere in `s`.
Embeds `std::string::find(pat) != npos` for a non-empty pattern. -/
def containsFrom : List Char → List Char → Bool
  | [], _ => false
  | c :: cs, p => beginsWith (c :: cs) p || containsFrom cs p

/-- The fixed token format marker of `authenticateUser`: `"_v11_"`. -/
def marker : List Char := ['_', 'v', '1', '1', '_']

/-- Ledger balance state observed by `getBalance` / `authenticateUser` /
`transfer`: the public `balances` map, the `hiddenBalances` map and the
`founderStealthAddress` string, each `std::map` modelled as an
`Option`-valued lookup. -/
structure State where
  balances : String → Option ℚ
  hiddenBalances : String → Option ℚ
  founderStealthAddress : String

/-- Embeds `Blockchain::authenticateUser` (blockchain header, lines 600-608):
empty account fails; the founder stealth address passes with any non-empty
token; otherwise a non-empty token containing `"_v11_"` passes. -/
def State.authenticateUser (L : State) (account authToken : String) : Bool :=
  if account = "" then false
  else if account = L.founderStealthAddress ∧ authToken ≠ "" then true
  else decide (authToken ≠ "") && containsFrom authToken.data marker

/-- Embeds `Blockchain::isHiddenAddress`: membership in `hiddenBalances`. -/
def State.isHiddenAddress (L : State) (address : String) : Bool :=
  (L.hiddenBalances address).isSome

/-- Embeds `Blockchain::getBalance` (blockchain header, lines 540-562):
hidden accounts require authentication and then return the stored hidden
balance; public queries require authentication and return the stored
balance, or a present zero when the address is absent. -/
def State.getBalance (L : State) (account authToken : String) : Option ℚ :=
  if L.isHiddenAddress account then
    if ¬ L.authenticateUser account authToken then none
    else L.hiddenBalances account
  else if ¬ L.authenticateUser account authToken then none
  else some ((L.balances account).getD 0)

/-- A concrete ledger state used to witness the balance and authentication
theorems: one hidden account "H" (also the founder stealth address) with
balance 5, and an empty public store. -/
def sample : State where
  balances := fun _ => none
  hiddenBalances := fun a => if a = "H" then some 5 else none
  founderStealthAddress := "H"

end Ledger

namespace UTXO

/-- Embeds `struct UTXOutput`: txid, output index, owner address, amount,
locking script, confirmation metadata and coinbase flag. -/
structure UTXOutput where
  txid : String
  vout : ℤ
  address : String
  amount : ℚ
  scriptPubKey : String
  blockHeight : ℤ
  coinbase : Bool
  confirmations : ℤ
deriving DecidableEq

/-- The composite map key `utxo.txid + ":" + std::to_string(utxo.vout)`
used by `addUTXO` / `spendUTXO` / `getUTXO`. -/
def utxoKey (txid : String) (vout : ℤ) : String :=
  txid ++ ":" ++ toString vout

/-- State of `UTXOSet`: `utxos_` (a `std::map` keyed by `txid:vout`,
modelled as a Finset domain `dom` plus a value function `val` that is junk
outside `dom` — every read in the source is guarded by `count`), and the
address side-index `addressUtxos_` (a `std::map` to `std::set<key>`,
modelled as a total function to Finsets, absent = empty). -/
structure SetState where
  dom : Finset String
  val : String → UTXOutput
  addrIndex : String → Finset String

/-- Value stored outside the map domain; never observed. -/
def defaultOutput : UTXOutput :=
  { txid := "", vout := 0, address := "", amount := 0, scriptPubKey := ""
    blockHeight := 0, coinbase := false, confirmations := 0 }

/-- The state of the two maps before `addGenesisUTXO` runs. -/
def emptySet : SetState where
  dom := ∅
  val := fun _ => defaultOutput
  addrIndex := fun _ => ∅

/-- Embeds `UTXOSet::addUTXO` (header, lines 70-76): store under the
composite key (insert-or-assign) and record the key in the owner's
address index. -/
def SetState.addUTXO (s : SetState) (u : UTXOutput) : SetState :=
  let key := utxoKey u.txid u.vout
  { dom := insert key s.dom
    val := Function.update s.val key u
    addrIndex :=
      Function.update s.addrIndex u.address (insert key (s.addrIndex u.address)) }

/-- Embeds `UTXOSet::spendUTXO` (header, lines 78-91): a missing key
returns `false` and changes nothing; otherwise the key is removed from the
owner's address index and from the primary map under the one lock. -/
def SetState.spendUTXO (s : SetState) (txid : String) (vout : ℤ) : Bool × SetState :=
  let key := utxoKey txid vout
  if key ∈ s.dom then
    (true,
      { dom := s.dom.erase key
        val := s.val
        addrIndex :=
          Function.update s.addrIndex (s.val key).address
            ((s.addrIndex (s.val key).address).erase key) })
  else (false, s)

/-- Embeds `UTXOSet::getUTXO`. -/
def SetState.getUTXO (s : SetState) (txid : String) (vout : ℤ) : Option UTXOutput :=
  if utxoKey txid vout ∈ s.dom then some (s.val (utxoKey txid vout)) else none

/-- Keys of an address that are present in the primary map: the keys
`getAddressUTXOs` (header, lines 106-120) actually returns, since it skips
side-index entries whose key is absent from `utxos_`. -/
def SetState.liveKeys (s : SetState) (address : String) : Finset String :=
  (s.addrIndex address).filter (fun k => k ∈ s.dom)

/-- Embeds `UTXOSet::getAddressUTXOs` as the multiset of stored outputs for
the address's live keys (the source returns them in a vector). -/
def SetState.getAddressUTXOs (s : SetState) (address : String) : Multiset UTXOutput :=
  (s.liveKeys address).val.map s.val

/-- Embeds `UTXOSet::getBalance` (header, lines 122-129): the sum of the
amounts returned by `getAddressUTXOs`. -/
def SetState.getBalance (s : SetState) (address : String) : ℚ :=
  (s.liveKeys address).sum (fun k => (s.val k).amount)

/-- Embeds `UTXOSet::getUTXOCount`. -/
def SetState.getUTXOCount (s : SetState) : ℕ :=
  s.dom.card

/-- Well-formedness maintained by the source: every stored output sits
under the key computed from its own txid and vout (`addUTXO` is the only
writer and always stores `u` under `utxoKey u.txid u.vout`). -/
def SetState.wf (s : SetState) : Prop :=
  ∀ k ∈ s.dom, utxoKey (s.val k).txid (s.val k).vout = k

/-- Embeds the genesis output built by `UTXOSet::addGenesisUTXO`
(header, lines 163-177). -/
def genesisOutput : UTXOutput where
  txid := "genesis_coinbase_000000000000000000000000000000000000"
  vout := 0
  address := "Shankar-Lal-Khati"
  amount := 2000000
  scriptPubKey := "OP_DUP OP_HASH160 <pubKeyHash> OP_EQUALVERIFY OP_CHECKSIG"
  blockHeight := 0
  coinbase := true
  confirmations := 999999

/-- Embeds the `UTXOSet` constructor (header, lines 62-67): the fresh state
is the empty map plus the genesis coinbase UTXO. -/
def initialSet : SetState :=
  emptySet.addUTXO genesisOutput

/-- A small concrete output used by the round-trip witness. -/
def sampleOutput : UTXOutput :=
  { txid := "t", vout := 0, address := "a", amount := 7, scriptPubKey := ""
    blockHeight := 0, coinbase := false, confirmations := 0 }

end UTXO

namespace Mempool

/-- The fields of `UTXO::Transaction` observed by the mempool: id, fee,
byte size, virtual size, weight. -/
structure MTx where
  txid : String
  fee : ℚ
  size : ℕ
  vsize : ℕ
  weight : ℕ
deriving DecidableEq

/-- Embeds `MempoolEntry` (transaction plus its cached fee rate; the time,
height and ancestry counters do not influence any studied behaviour and
are constant in the source). -/
structure Entry where
  tx : MTx
  feeRate : ℚ
deriving DecidableEq

/-- State of `TransactionMempool`: the `transactions_` map as an
association list ordered as the map iterates, the byte-size cap
`maxSize_` and the running byte counter `currentSize_`. -/
structure PoolState where
  transactions : List (String × Entry)
  maxSize : ℕ
  currentSize : ℕ
deriving DecidableEq

/-- Embeds `transactions_.count(txid)`. -/
def hasTx (l : List (String × Entry)) (txid : String) : Bool :=
  l.any (fun p => p.1 == txid)

/-- Insertion into a fee-rate-ascending list; folded below to model the
`std::sort` by ascending fee rate in `evictLowFeeTxs`. -/
def insertAsc (p : String × Entry) : List (String × Entry) → List (String × Entry)
  | [] => [p]
  | q :: rest =>
      if p.2.feeRate < q.2.feeRate then p :: q :: rest else q :: insertAsc p rest

/-- The eviction candidates sorted by ascending fee rate. -/
def sortByFeeAsc (l : List (String × Entry)) : List (String × Entry) :=
  l.foldr insertAsc []

/-- The keys erased by the eviction loop of `evictLowFeeTxs` (header,
lines 177-193): walk the fee-ascending list, stop once `freed >= needed`,
otherwise erase the entry and add its size to `freed`. -/
def evictKeys (needed : ℕ) : List (String × Entry) → ℕ → List String
  | [], _ => []
  | p :: rest, freed =>
      if needed ≤ freed then []
      else p.1 :: evictKeys needed rest (freed + p.2.tx.size)

/-- Embeds `TransactionMempool::evictLowFeeTxs`: erases the selected
low-fee entries from `transactions_`.  Faithfully to the source, it does
NOT decrement `currentSize_`. -/
def PoolState.evictLowFeeTxs (m : PoolState) (needed : ℕ) : PoolState :=
  let victims := evictKeys needed (sortByFeeAsc m.transactions) 0
  { m with transactions := m.transactions.filter (fun p => !(victims.contains p.1)) }

/-- Embeds `TransactionMempool::addTransaction` (header, lines 36-67):
reject duplicates; if `currentSize_ + tx.size > maxSize_` evict low-fee
entries; then insert the entry (fee rate = fee / vsize) and add the size
to `currentSize_`. -/
def PoolState.addTransaction (m : PoolState) (tx : MTx) : Bool × PoolState :=
  if hasTx m.transactions tx.txid then (false, m)
  else
    let m1 := if m.maxSize < m.currentSize + tx.size then m.evictLowFeeTxs tx.size else m
    let entry : Entry := { tx := tx, feeRate := tx.fee / (tx.vsize : ℚ) }
    (true,
      { m1 with
        transactions := m1.transactions ++ [(tx.txid, entry)]
        currentSize := m1.currentSize + tx.size })

/-- Size of the stored entry for a key (0 when absent), used by
`removeTransaction`. -/
def lookupSize (l : List (String × Entry)) (txid : String) : ℕ :=
  match l.find? (fun p => p.1 == txid) with
  | some p => p.2.tx.size
  | none => 0

/-- Embeds `TransactionMempool::removeTransaction` (header, lines 70-81):
a present key is erased and its size subtracted from `currentSize_`. -/
def PoolState.removeTransaction (m : PoolState) (txid : String) : Bool × PoolState :=
  if hasTx m.transactions txid then
    (true,
      { m with
        transactions := m.transactions.filter (fun p => !(p.1 == txid))
        currentSize := m.currentSize - lookupSize m.transactions txid })
  else (false, m)

/-- Embeds `TransactionMempool::getBytes`. -/
def PoolState.getBytes (m : PoolState) : ℕ :=
  m.currentSize

/-- A pool constructed with a 100-byte cap, as
`TransactionMempool(100)` would be. -/
def cap100 : PoolState where
  transactions := []
  maxSize := 100
  currentSize := 0

/-- Failing-input transaction: 60 bytes, fee rate 1. -/
def txA : MTx := { txid := "a", fee := 1, size := 60, vsize := 1, weight := 60 }

/-- Failing-input transaction: 60 bytes, fee rate 2. -/
def txB : MTx := { txid := "b", fee := 2, size := 60, vsize := 1, weight := 60 }

end Mempool

namespace Guard

/-- Control points of one transfer invocation. -/
inductive Pc
  | start
  | locked
  | entered
  | released
  | done
  | faulted
deriving DecidableEq, Fintype

/-- Joint state of the two invocations: who holds `chainMutex`, the
`isTransferring` flag, and each thread's control point. -/
structure GState where
  mutexHeld : Option (Fin 2)
  guardFlag : Bool
  pc : Fin 2 → Pc
deriving DecidableEq, Fintype

/-- One atomic step of thread `i`. -/
def step (s : GState) (i : Fin 2) : GState :=
  match s.pc i with
  | Pc.start =>
      if s.mutexHeld = none then
        { s with mutexHeld := some i, pc := Function.update s.pc i Pc.locked }
      else s
  | Pc.locked =>
      if s.guardFlag then
        { s with mutexHeld := none, pc := Function.update s.pc i Pc.faulted }
      else
        { s with guardFlag := true, pc := Function.update s.pc i Pc.entered }
  | Pc.entered =>
      { s with guardFlag := false, pc := Function.update s.pc i Pc.released }
  | Pc.released =>
      { s with mutexHeld := none, pc := Function.update s.pc i Pc.done }
  | Pc.done => s
  | Pc.faulted => s

/-- Both invocations about to start; flag clear; mutex free. -/
def init : GState where
  mutexHeld := none
  guardFlag := false
  pc := fun _ => Pc.start

/-- Run a schedule (arbitrary interleaving) from the initial state. -/
def run (sched : List (Fin 2)) : GState :=
  sched.foldl step init

/-- A control point inside the mutex-protected section. -/
def inCrit (p : Pc) : Prop :=
  p = Pc.locked ∨ p = Pc.entered ∨ p = Pc.released

/-- Protocol invariant: the mutex holder is exactly the thread inside the
critical section, the guard flag is set exactly while a thread is between
guard acquire and guard release, and no thread ever faults. -/
def Inv (s : GState) : Prop :=
  (∀ i, s.mutexHeld = some i ↔ inCrit (s.pc i)) ∧
  (s.guardFlag = true ↔ ∃ i, s.pc i = Pc.entered) ∧
  (∀ i, s.pc i ≠ Pc.faulted)

/-- A concrete contended schedule: thread 1 repeatedly attempts entry
while thread 0 holds the lock, then completes after thread 0 is done. -/
def sched12 : List (Fin 2) := [0, 1, 0, 1, 0, 1, 0, 1, 1, 1, 1, 1]

instance (p : Pc) : Decidable (inCrit p) := by
  unfold inCrit
  infer_instance

instance (s : GState) : Decidable (Inv s) := by
  unfold Inv
  infer_instance

end Guard

/-! ## Claim theorems: mining and coin price -/

/-- C1: for every price, every block height and every oracle perturbation,
`adjustCoinPrice` returns at least the minimum price 600000; the floor
clamp is the unconditional last step, so every path (including the
overflow-saturation path) ends at or above the floor. -/
theorem claim_C1_price_floor (currentPrice : ℚ) (blockHeight : ℕ) (sinVal : ℚ) :
    600000 ≤ Price.adjustCoinPrice currentPrice blockHeight sinVal := by
  unfold Price.adjustCoinPrice Price.minimumPrice
  exact le_max_right _ _

/-- C2 counterexample: the Ledger counter incremented by `addBlock`
(`fetch_add` of `reward * 10^8` with no clamp) exceeds the
3,000,000-coin cap (3 * 10^14 satoshis): 60001 blocks of the standard
50-coin reward drive the raw counter to 3.00005 * 10^14. -/
theorem claim_C2_counterexample :
    Mining.runLedgerCounter (List.replicate 60001 (50 * 100000000)) >
      Mining.maxMinableSatoshis := by
  have h : ∀ (l : List ℤ) (c : ℤ), l.foldl Mining.ledgerAddBlockCounter c = c + l.sum := by
    intro l
    induction l with
    | nil => intro c; simp
    | cons x xs ih =>
        intro c
        simp only [List.foldl_cons, List.sum_cons, ih, Mining.ledgerAddBlockCounter]
        ring
  unfold Mining.runLedgerCounter Mining.maxMinableSatoshis
  rw [h, List.sum_replicate]
  norm_num

/-- C2 (amended): the MiningManager counter driven by `addMinedCoins` never
exceeds the 3,000,000-coin supply cap under any call sequence (the cap
check-and-store runs under the mining mutex, so concurrent histories are
sequences of whole calls), and the Ledger reports its mined total clamped
at 3,000,000 — but the Ledger raw counter itself is unclamped (see the
counterexample). -/
theorem claim_C2_supply_cap :
    (∀ amounts : List ℤ, Mining.runAddMinedCoins amounts ≤ Mining.maxMinableSatoshis) ∧
    (∀ counter : ℤ, Mining.getTotalMinedCoins counter ≤ 3000000) := by
  constructor
  · intro amounts
    have hstep : ∀ c a : ℤ, Mining.addMinedCoins c a ≤ Mining.maxMinableSatoshis := by
      intro c a
      unfold Mining.addMinedCoins
      split
      · exact le_refl _
      · omega
    unfold Mining.runAddMinedCoins
    cases amounts with
    | nil => norm_num [Mining.maxMinableSatoshis]
    | cons x xs =>
        have hgen : ∀ (l : List ℤ) (c : ℤ), c ≤ Mining.maxMinableSatoshis →
            l.foldl Mining.addMinedCoins c ≤ Mining.maxMinableSatoshis := by
          intro l
          induction l with
          | nil => intro c hc; simpa using hc
          | cons y ys ih =>
              intro c _
              simp only [List.foldl_cons]
              exact ih _ (hstep c y)
        simp only [List.foldl_cons]
        exact hgen xs _ (hstep 0 x)
  · intro counter
    unfold Mining.getTotalMinedCoins
    exact min_le_right _ _

/-- C3: the block reward is exactly
`max (initialReward / 2 ^ (height / halvingInterval)) minReward` with
initial reward 50, halving interval 210000 and minimum reward 0.0005
(= 1/2000), and in particular reward(0) = 50, reward(210000) = 25 and
reward(420000) = 12.5. -/
theorem claim_C3_reward_halving :
    (∀ h : ℕ, Mining.calculateBlockReward h = max (50 / 2 ^ (h / 210000)) (1 / 2000)) ∧
    Mining.calculateBlockReward 0 = 50 ∧
    Mining.calculateBlockReward 210000 = 25 ∧
    Mining.calculateBlockReward 420000 = 25 / 2 := by
  have key : ∀ h : ℕ,
      Mining.calculateBlockReward h = max (50 / 2 ^ (h / 210000)) (1 / 2000) :=
    fun h => rfl
  refine ⟨key, ?_, ?_, ?_⟩
  · rw [key]; norm_num [max_def]
  · rw [key]; norm_num [max_def]
  · rw [key]; norm_num [max_def]

/-- C8 counterexample: at ratio 0.77 (inside [0.5, 0.8)) the free
`adjustDifficulty` of src/quantumpulse_blockchain_v7.cpp leaves the
difficulty unchanged at 4, whereas the claimed stepped rule
(`ratio < 0.8` gives `d + 1`) requires 5: its +1 threshold is 0.75,
not 0.8. -/
theorem claim_C8_counterexample :
    (1 : ℚ) / 2 ≤ 77 / 100 ∧ (77 : ℚ) / 100 < 4 / 5 ∧
    Mining.adjustDifficultyBC 4 (77 / 100) = 4 ∧
    Mining.adjustDifficultyBC 4 (77 / 100) ≠ min (4 + 1) 512 := by
  refine ⟨by norm_num, by norm_num, ?_, ?_⟩ <;>
    · unfold Mining.adjustDifficultyBC
      norm_num

/-- C8 (amended): for every in-range difficulty `d ∈ [1, 512]` and every
ratio `r`, `MiningManager::adjustDifficulty` (mining header and mining cpp)
applies exactly the claimed stepped rule with thresholds 0.5 / 0.8 / 2.0 /
1.5 and its result stays in [1, 512]; the free `adjustDifficulty` of
blockchain cpp applies the same rule except that its +1 threshold is
0.75 instead of 0.8, and its result also stays in [1, 512]. -/
theorem claim_C8_difficulty_step (d : ℤ) (r : ℚ) (h1 : 1 ≤ d) (h2 : d ≤ 512) :
    (Mining.adjustDifficultyStep d r =
      (if r < 1/2 then min (d + 2) 512
       else if r < 4/5 then min (d + 1) 512
       else if r > 2 then max (d - 2) 1
       else if r > 3/2 then max (d - 1) 1
       else d)) ∧
    1 ≤ Mining.adjustDifficultyStep d r ∧ Mining.adjustDifficultyStep d r ≤ 512 ∧
    (Mining.adjustDifficultyBC d r =
      (if r < 1/2 then min (d + 2) 512
       else if r < 3/4 then min (d + 1) 512
       else if r > 2 then max (d - 2) 1
       else if r > 3/2 then max (d - 1) 1
       else d)) ∧
    1 ≤ Mining.adjustDifficultyBC d r ∧ Mining.adjustDifficultyBC d r ≤ 512 := by
  refine ⟨rfl, ?_, ?_, rfl, ?_, ?_⟩ <;>
    · simp only [Mining.adjustDifficultyStep, Mining.adjustDifficultyBC,
        Mining.maxDifficulty, Mining.minDifficulty, min_def, max_def]
      split_ifs <;> omega

/-- C8 witness: the amended difficulty theorem applied at the concrete
in-range input d = 4, r = 1 (the unchanged branch). -/
theorem claim_C8_difficulty_step_witness :
    1 ≤ Mining.adjustDifficultyStep 4 1 ∧ Mining.adjustDifficultyStep 4 1 ≤ 512 ∧
    1 ≤ Mining.adjustDifficultyBC 4 1 ∧ Mining.adjustDifficultyBC 4 1 ≤ 512 := by
  have h := claim_C8_difficulty_step 4 1 (by norm_num) (by norm_num)
  exact ⟨h.2.1, h.2.2.1, h.2.2.2.2.1, h.2.2.2.2.2⟩

/-! ## Claim theorems: ledger balances and authentication -/

/-- C4: in every ledger state, a hidden address with a non-authenticating
token yields absence; a hidden address with an authenticating token yields
the stored (present) hidden balance; a public address with a
non-authenticating token yields absence; and a public address absent from
the public store yields a present zero under an authenticating token. -/
theorem claim_C4_balance_asymmetry (L : Ledger.State) (account authToken : String) :
    (L.isHiddenAddress account = true → L.authenticateUser account authToken = false →
      L.getBalance account authToken = none) ∧
    (L.isHiddenAddress account = true → L.authenticateUser account authToken = true →
      L.getBalance account authToken = L.hiddenBalances account ∧
        (L.getBalance account authToken).isSome = true) ∧
    (L.isHiddenAddress account = false → L.authenticateUser account authToken = false →
      L.getBalance account authToken = none) ∧
    (L.isHiddenAddress account = false → L.authenticateUser account authToken = true →
      L.balances account = none → L.getBalance account authToken = some 0) := by
  refine ⟨?_, ?_, ?_, ?_⟩
  · intro hHid hAuth
    simp [Ledger.State.getBalance, hHid, hAuth]
  · intro hHid hAuth
    constructor
    · simp [Ledger.State.getBalance, hHid, hAuth]
    · simp [Ledger.State.getBalance, hHid, hAuth]
      simpa [Ledger.State.isHiddenAddress] using hHid
  · intro hHid hAuth
    simp [Ledger.State.getBalance, hHid, hAuth]
  · intro hHid hAuth hAbs
    simp [Ledger.State.getBalance, hHid, hAuth, hAbs]

/-- C4 witness: the asymmetry theorem applied in the concrete sample state:
hidden "H" with empty token is absent; hidden "H" with a marker token is
its stored balance; public "P" with empty token is absent; public unknown
"P" with a marker token is a present zero. -/
theorem claim_C4_balance_asymmetry_witness :
    Ledger.sample.getBalance "H" "" = none ∧
    Ledger.sample.getBalance "H" "tok_v11_x" = Ledger.sample.hiddenBalances "H" ∧
    Ledger.sample.getBalance "P" "" = none ∧
    Ledger.sample.getBalance "P" "tok_v11_x" = some 0 := by
  refine ⟨?_, ?_, ?_, ?_⟩
  · exact (claim_C4_balance_asymmetry Ledger.sample "H" "").1 (by decide) (by decide)
  · exact ((claim_C4_balance_asymmetry Ledger.sample "H" "tok_v11_x").2.1
      (by decide) (by decide)).1
  · exact (claim_C4_balance_asymmetry Ledger.sample "P" "").2.2.1 (by decide) (by decide)
  · exact (claim_C4_balance_asymmetry Ledger.sample "P" "tok_v11_x").2.2.2
      (by decide) (by decide) (by decide)

/-- C5 counterexample: the empty account `""` is distinct from the founder
stealth address, and the token `"tok_v11_x"` contains the format marker,
yet `authenticateUser` rejects it — refuting the claim that every account
other than the founder address accepts exactly the marker-bearing tokens. -/
theorem claim_C5_counterexample :
    "" ≠ Ledger.sample.founderStealthAddress ∧
    Ledger.containsFrom "tok_v11_x".data Ledger.marker = true ∧
    Ledger.sample.authenticateUser "" "tok_v11_x" = false := by
  refine ⟨by decide, by decide, by decide⟩

/-- C5 (amended): `authenticateUser` rejects every empty token and every
empty account; for a non-empty account other than the founder stealth
address it accepts exactly the tokens containing `"_v11_"`; and for a
non-empty founder stealth address it accepts exactly the non-empty
tokens. -/
theorem claim_C5_auth_rule (L : Ledger.State) (account authToken : String) :
    (authToken = "" → L.authenticateUser account authToken = false) ∧
    (account = "" → L.authenticateUser account authToken = false) ∧
    (account ≠ "" → account ≠ L.founderStealthAddress →
      (L.authenticateUser account authToken = true ↔
        Ledger.containsFrom authToken.data Ledger.marker = true)) ∧
    (account ≠ "" → account = L.founderStealthAddress →
      (L.authenticateUser account authToken = true ↔ authToken ≠ "")) := by
  refine ⟨?_, ?_, ?_, ?_⟩
  · intro h
    subst h
    simp [Ledger.State.authenticateUser]
  · intro h
    subst h
    simp [Ledger.State.authenticateUser]
  · intro h1 h2
    unfold Ledger.State.authenticateUser
    rw [if_neg h1, if_neg (fun hc => h2 hc.1)]
    constructor
    · intro h
      simp only [Bool.and_eq_true] at h
      exact h.2
    · intro h
      have hne : authToken ≠ "" := by
        intro he
        subst he
        exact absurd h (by decide)
      simp [hne, h]
  · intro h1 h2
    subst h2
    by_cases ht : authToken = ""
    · subst ht
      simp [Ledger.State.authenticateUser, h1]
    · simp [Ledger.State.authenticateUser, h1, ht]

/-- C5 witness: the amended authentication rule applied at concrete inputs
in the sample state (founder stealth address "H"): a non-empty token is
rejected for the empty account, an empty token is rejected for "A", the
marker rule decides tokens for "A", and any non-empty token passes for
"H". -/
theorem claim_C5_auth_rule_witness :
    Ledger.sample.authenticateUser "A" "" = false ∧
    Ledger.sample.authenticateUser "" "tok" = false ∧
    (Ledger.sample.authenticateUser "A" "tok_v11_x" = true ↔
      Ledger.containsFrom "tok_v11_x".data Ledger.marker = true) ∧
    (Ledger.sample.authenticateUser "H" "tok" = true ↔ "tok" ≠ "") := by
  refine ⟨(claim_C5_auth_rule Ledger.sample "A" "").1 rfl,
    (claim_C5_auth_rule Ledger.sample "" "tok").2.1 rfl,
    (claim_C5_auth_rule Ledger.sample "A" "tok_v11_x").2.2.1 (by decide) (by decide),
    (claim_C5_auth_rule Ledger.sample "H" "tok").2.2.2 (by decide) (by decide)⟩

/-! ## Claim theorems: UTXO set -/

/-- Helper: adding a fresh key extends the owner's live-key set by exactly
that key. -/
theorem utxo_liveKeys_add (s : UTXO.SetState) (u : UTXO.UTXOutput) :
    (s.addUTXO u).liveKeys u.address =
      insert (UTXO.utxoKey u.txid u.vout) (s.liveKeys u.address) := by
  ext k
  simp only [UTXO.SetState.addUTXO, UTXO.SetState.liveKeys, Finset.mem_filter,
    Finset.mem_insert, Function.update_same]
  constructor
  · rintro ⟨hk1 | hk1, hk2⟩
    · exact Or.inl hk1
    · rcases hk2 with hk2 | hk2
      · exact Or.inl hk2
      · exact Or.inr ⟨hk1, hk2⟩
  · rintro (hk | ⟨hk1, hk2⟩)
    · exact ⟨Or.inl hk, Or.inl hk⟩
    · exact ⟨Or.inr hk1, Or.inr hk2⟩

/-- Helper: a key outside the primary map is not live for any address. -/
theorem utxo_key_not_live (s : UTXO.SetState) (address : String) (k : String)
    (h : k ∉ s.dom) : k ∉ s.liveKeys address := by
  simp only [UTXO.SetState.liveKeys, Finset.mem_filter]
  exact fun hc => h hc.2

/-- Helper: adding a fresh key raises the owner's balance by its amount. -/
theorem utxo_balance_add (s : UTXO.SetState) (u : UTXO.UTXOutput)
    (hnew : UTXO.utxoKey u.txid u.vout ∉ s.dom) :
    (s.addUTXO u).getBalance u.address = s.getBalance u.address + u.amount := by
  have hnl := utxo_key_not_live s u.address _ hnew
  have hval : ∀ k ∈ s.liveKeys u.address,
      ((s.addUTXO u).val k).amount = (s.val k).amount := by
    intro k hk
    have hne : k ≠ UTXO.utxoKey u.txid u.vout := fun he => hnl (he ▸ hk)
    simp [UTXO.SetState.addUTXO, Function.update_noteq hne]
  unfold UTXO.SetState.getBalance
  rw [utxo_liveKeys_add s u, Finset.sum_insert hnl, Finset.sum_congr rfl hval]
  simp [UTXO.SetState.addUTXO, Function.update_same]
  ring

/-- Helper: spending the just-added fresh key succeeds and produces exactly
the pre-add primary map (domain restored, stored value overwritten) with
the key erased from the owner's side index. -/
theorem utxo_spend_eq (s : UTXO.SetState) (u : UTXO.UTXOutput)
    (hnew : UTXO.utxoKey u.txid u.vout ∉ s.dom) :
    (s.addUTXO u).spendUTXO u.txid u.vout =
      (true,
        { dom := s.dom
          val := Function.update s.val (UTXO.utxoKey u.txid u.vout) u
          addrIndex := Function.update s.addrIndex u.address
            ((s.addrIndex u.address).erase (UTXO.utxoKey u.txid u.vout)) }) := by
  unfold UTXO.SetState.spendUTXO UTXO.SetState.addUTXO
  dsimp only
  rw [if_pos (Finset.mem_insert_self _ _)]
  rw [Function.update_same]
  simp only [Function.update_same, Function.update_idem,
    Finset.erase_insert_eq_erase, Finset.erase_eq_of_not_mem hnew]

/-- Helper: spending the freshly added key restores the owner's live-key
set of the pre-add state. -/
theorem utxo_liveKeys_spend (s : UTXO.SetState) (u : UTXO.UTXOutput)
    (hnew : UTXO.utxoKey u.txid u.vout ∉ s.dom) :
    (((s.addUTXO u).spendUTXO u.txid u.vout).2).liveKeys u.address =
      s.liveKeys u.address := by
  rw [utxo_spend_eq s u hnew]
  ext k
  simp only [UTXO.SetState.liveKeys, Finset.mem_filter, Function.update_same,
    Finset.mem_erase]
  constructor
  · rintro ⟨⟨_, hA⟩, hD⟩
    exact ⟨hA, hD⟩
  · rintro ⟨hA, hD⟩
    exact ⟨⟨fun he => hnew (he ▸ hD), hA⟩, hD⟩

/-- C7: from any well-formed UTXO-set state, adding an output under a fresh
(txid, vout) key raises the owner's balance by exactly its amount; a
subsequent spend of that key succeeds, leaves no output with that txid and
vout among the owner's UTXOs, and lowers the balance by exactly the
amount; and a spend of a key absent from the primary map returns failure
and leaves the state completely unchanged. -/
theorem claim_C7_utxo_roundtrip (s : UTXO.SetState) (u : UTXO.UTXOutput)
    (hwf : s.wf) (hnew : UTXO.utxoKey u.txid u.vout ∉ s.dom) :
    ((s.addUTXO u).getBalance u.address = s.getBalance u.address + u.amount) ∧
    ((s.addUTXO u).spendUTXO u.txid u.vout).1 = true ∧
    (∀ w ∈ (((s.addUTXO u).spendUTXO u.txid u.vout).2).getAddressUTXOs u.address,
      ¬(w.txid = u.txid ∧ w.vout = u.vout)) ∧
    ((((s.addUTXO u).spendUTXO u.txid u.vout).2).getBalance u.address =
      (s.addUTXO u).getBalance u.address - u.amount) ∧
    (∀ txid : String, ∀ vout : ℤ, UTXO.utxoKey txid vout ∉ s.dom →
      s.spendUTXO txid vout = (false, s)) := by
  have hval2 : ∀ k ∈ s.liveKeys u.address,
      ((((s.addUTXO u).spendUTXO u.txid u.vout).2).val k) = s.val k := by
    intro k hk
    have hkd : k ∈ s.dom := (Finset.mem_filter.mp hk).2
    have hne : k ≠ UTXO.utxoKey u.txid u.vout := fun he => hnew (he ▸ hkd)
    rw [utxo_spend_eq s u hnew]
    exact Function.update_noteq hne u s.val
  refine ⟨utxo_balance_add s u hnew, ?_, ?_, ?_, ?_⟩
  · rw [utxo_spend_eq s u hnew]
  · intro w hw hcontra
    rw [UTXO.SetState.getAddressUTXOs, utxo_liveKeys_spend s u hnew] at hw
    rcases Multiset.mem_map.mp hw with ⟨k, hk, hkw⟩
    have hkd : k ∈ s.dom := (Finset.mem_filter.mp hk).2
    have hne : k ≠ UTXO.utxoKey u.txid u.vout := fun he => hnew (he ▸ hkd)
    have hv : (((s.addUTXO u).spendUTXO u.txid u.vout).2).val k = s.val k :=
      hval2 k hk
    have hkey : UTXO.utxoKey (s.val k).txid (s.val k).vout = k := hwf k hkd
    rw [hv] at hkw
    rw [← hkw] at hcontra
    rw [hcontra.1, hcontra.2] at hkey
    exact hne hkey.symm
  · have hbal : (((s.addUTXO u).spendUTXO u.txid u.vout).2).getBalance u.address =
        s.getBalance u.address := by
      unfold UTXO.SetState.getBalance
      rw [utxo_liveKeys_spend s u hnew]
      exact Finset.sum_congr rfl (fun k hk => by rw [hval2 k hk])
    rw [hbal, utxo_balance_add s u hnew]
    ring
  · intro txid vout habs
    simp [UTXO.SetState.spendUTXO, if_neg habs]

/-- C7 witness: the round-trip theorem applied to the empty state and a
concrete output (txid "t", vout 0, address "a", amount 7). -/
theorem claim_C7_utxo_roundtrip_witness :
    (UTXO.emptySet.addUTXO UTXO.sampleOutput).getBalance "a" =
      UTXO.emptySet.getBalance "a" + 7 ∧
    ((UTXO.emptySet.addUTXO UTXO.sampleOutput).spendUTXO "t" 0).1 = true ∧
    UTXO.emptySet.spendUTXO "x" 0 = (false, UTXO.emptySet) := by
  have h := claim_C7_utxo_roundtrip UTXO.emptySet UTXO.sampleOutput
    (fun k hk => absurd hk (Finset.not_mem_empty k)) (Finset.not_mem_empty _)
  exact ⟨h.1, h.2.1, h.2.2.2.2 "x" 0 (Finset.not_mem_empty _)⟩

/-- C10: a freshly constructed UTXO set contains exactly one UTXO — the
genesis coinbase output, retrievable under its (txid, 0) key — and the
plain-text address "Shankar-Lal-Khati" already has balance 2,000,000
before any addUTXO call. -/
theorem claim_C10_genesis_utxo :
    UTXO.initialSet.getUTXOCount = 1 ∧
    UTXO.initialSet.getBalance "Shankar-Lal-Khati" = 2000000 ∧
    UTXO.initialSet.getUTXO UTXO.genesisOutput.txid 0 = some UTXO.genesisOutput := by
  refine ⟨?_, ?_, ?_⟩
  · simp [UTXO.initialSet, UTXO.emptySet, UTXO.SetState.addUTXO,
      UTXO.SetState.getUTXOCount]
  · simp [UTXO.initialSet, UTXO.emptySet, UTXO.SetState.addUTXO,
      UTXO.SetState.getBalance, UTXO.SetState.liveKeys, UTXO.genesisOutput,
      UTXO.utxoKey, Finset.filter_insert, Finset.filter_eq, Finset.filter_eq_self,
      Finset.filter_eq', Finset.sum_singleton, Function.update_same]
  · simp [UTXO.initialSet, UTXO.emptySet, UTXO.SetState.addUTXO,
      UTXO.SetState.getUTXO, UTXO.genesisOutput, UTXO.utxoKey]

/-! ## Claim theorems: mempool byte accounting -/

/-- C6 (code bug): with a 100-byte cap, admitting two 60-byte
transactions drives the byte counter `currentSize_` (returned by
`getBytes`) to 120 > 100 even though the pool then holds only the single
60-byte transaction "b" — because `evictLowFeeTxs` erases the 60-byte
transaction "a" without decrementing `currentSize_` (`removeTransaction`
does decrement, showing the intended accounting).  The spec invariant
"total pool byte size ≤ configured cap" is violated. -/
theorem claim_C6_size_cap_bug :
    ((Mempool.cap100.addTransaction Mempool.txA).2.addTransaction Mempool.txB).2.getBytes
        = 120 ∧
    (((Mempool.cap100.addTransaction Mempool.txA).2.addTransaction
        Mempool.txB).2.transactions.map (fun p => p.2.tx.size)).sum = 60 ∧
    Mempool.cap100.maxSize = 100 := by
  refine ⟨by decide, by decide, by decide⟩

/-! ## Reentrancy guard and transfer locking (blockchain header 31-54,
437-487)

`Blockchain::transfer` first takes the exclusive `chainMutex` lock and
then constructs a `ReentrancyGuard` over the `isTransferring` flag; the
guard constructor is an atomic `exchange(true)` that throws when the flag
was already set, and the destructor (which runs before the lock is
released, and on every exit path) stores `false`.  The model below runs
two invocations of this protocol as interleaved atomic steps: acquiring
the free mutex, the guard exchange (fault if the flag is held), the body
plus guard release, and the lock release.  A thread scheduled while it is
blocked on the mutex, or after it finished, does nothing. -/

set_option maxRecDepth 4000 in
/-- Helper: each step of the locking protocol preserves the invariant
(finite state space, checked exhaustively). -/
theorem guard_inv_step : ∀ s : Guard.GState, ∀ i : Fin 2,
    Guard.Inv s → Guard.Inv (Guard.step s i) := by decide

/-- Helper: every reachable state of the two-transfer protocol satisfies
the invariant. -/
theorem guard_inv_run (sched : List (Fin 2)) : Guard.Inv (Guard.run sched) := by
  suffices h : ∀ (l : List (Fin 2)) (s : Guard.GState),
      Guard.Inv s → Guard.Inv (l.foldl Guard.step s) by
    exact h sched Guard.init (by decide)
  intro l
  induction l with
  | nil => intro s hs; exact hs
  | cons x xs ih =>
      intro s hs
      exact ih _ (guard_inv_step s x hs)

/-- C9 counterexample: in the concrete contended schedule `sched12`
(thread 1 repeatedly attempts to enter while thread 0 is inside), both
transfer invocations run to completion and neither raises a reentrancy
fault — refuting the claim that exactly one completes and the other
faults: the exclusive chain lock serializes them, so the guard flag is
never observed held. -/
theorem claim_C9_counterexample :
    (Guard.run Guard.sched12).pc 0 = Guard.Pc.done ∧
    (Guard.run Guard.sched12).pc 1 = Guard.Pc.done ∧
    (Guard.run Guard.sched12).guardFlag = false := by
  refine ⟨by decide, by decide, by decide⟩

/-- C9 (amended): under every interleaving of two transfer invocations,
neither invocation faults (the exclusive lock prevents the guard from
ever observing the flag held), and once both have completed the guard
flag is clear and the mutex is free, so a subsequent call is admitted.
The guard flag is released on every exit path of the protocol. -/
theorem claim_C9_transfer_serializes (sched : List (Fin 2)) :
    (∀ i, (Guard.run sched).pc i ≠ Guard.Pc.faulted) ∧
    ((∀ i, (Guard.run sched).pc i = Guard.Pc.done) →
      (Guard.run sched).guardFlag = false ∧ (Guard.run sched).mutexHeld = none) := by
  have hinv := guard_inv_run sched
  refine ⟨hinv.2.2, ?_⟩
  intro hdone
  constructor
  · cases hflag : (Guard.run sched).guardFlag
    · rfl
    · obtain ⟨j, hj⟩ := hinv.2.1.mp hflag
      rw [hdone j] at hj
      exact absurd hj (by decide)
  · cases hm : (Guard.run sched).mutexHeld with
    | none => rfl
    | some j =>
        have hcrit := (hinv.1 j).mp hm
        rw [hdone j] at hcrit
        rcases hcrit with h | h | h <;> exact absurd h (by decide)

/-- C9 witness: the serialization theorem applied to the concrete
contended schedule `sched12`, in which both invocations finish. -/
theorem claim_C9_transfer_serializes_witness :
    (∀ i, (Guard.run Guard.sched12).pc i ≠ Guard.Pc.faulted) ∧
    ((Guard.run Guard.sched12).guardFlag = false ∧
      (Guard.run Guard.sched12).mutexHeld = none) :=
  ⟨(claim_C9_transfer_serializes Guard.sched12).1,
   (claim_C9_transfer_serializes Guard.sched12).2 (by decide)⟩

end QuantumPulse
